import Mathlib

/-!
Verification of the rate-gated claim pipeline.

This file gives a shallow embedding of the repository's core logic and
proves (or refutes) the specification claims about it:

* `src/utils/rate_limiter.py` — `RateLimiter` (per-identifier sliding
  window) and `GlobalRateLimiter`.  The Python dict-of-deques state is
  modelled as an association list preserving insertion order, and the
  in-place deque mutation as explicit state passing.  Wall-clock
  timestamps (Python floats used only with `≤`, `+`, `-`) are modelled
  as integers.
* `src/bot/fact_checker.py` — `_clean_claim` (markdown normalization),
  `_parse_fact_check_response`, `_parse_expose_response`, `check_claim`.
  The specific regular expressions of the source are implemented
  directly as character-list scanners, including the leftmost,
  non-overlapping scan of `re.sub` and the backtracking behaviour of
  `re.search` for these particular patterns.
* `src/bot/discord_bot.py` — the automatic-analysis path of
  `on_message` (rate-limit check, then trigger check, then analysis),
  with the trigger detector abstracted as a boolean-valued parameter
  since only its call position matters for the claims.

The external model service is modelled as a function parameter
`String → Option String` (`None` = failed call).
-/

/-! ## Python string primitives -/

/-- Python whitespace for `str.split` / `str.strip` / regex `\s` (ASCII part). -/
def pyIsSpace (c : Char) : Bool :=
  c = ' ' || c = '\t' || c = '\n' || c = '\r' || c = '\x0b' || c = '\x0c'

/-- Python `str.strip()`: remove leading and trailing whitespace. -/
def pyStrip (l : List Char) : List Char :=
  ((l.dropWhile pyIsSpace).reverse.dropWhile pyIsSpace).reverse

/-- Fuel-bounded worker for `pySplit` (structural recursion so the
kernel can evaluate it; with fuel at least the list length the bound is
never hit). -/
def pySplitF : Nat → List Char → List (List Char)
  | _, [] => []
  | 0, _ => []
  | fuel + 1, c :: cs =>
    if pyIsSpace c then pySplitF fuel cs
    else (c :: cs.takeWhile (fun d => !pyIsSpace d)) ::
      pySplitF fuel (cs.dropWhile (fun d => !pyIsSpace d))

/-- Python `str.split()` (no argument): split on whitespace runs, dropping empties. -/
def pySplit (l : List Char) : List (List Char) :=
  pySplitF l.length l

theorem pySplitF_eq : ∀ (n m : Nat) (l : List Char), l.length ≤ n → l.length ≤ m →
    pySplitF n l = pySplitF m l := by
  intro n
  induction n with
  | zero =>
    intro m l hn _
    have : l = [] := List.length_eq_zero.mp (Nat.le_zero.mp hn)
    subst this
    cases m <;> simp [pySplitF]
  | succ n ih =>
    intro m l hn hm
    cases l with
    | nil => cases m <;> simp [pySplitF]
    | cons c cs =>
      cases m with
      | zero => simp at hm
      | succ m' =>
        simp only [List.length_cons] at hn hm
        rw [pySplitF, pySplitF]
        by_cases hc : pyIsSpace c = true
        · simp only [hc, if_true, ite_true]
          exact ih m' cs (by omega) (by omega)
        · simp only [hc, Bool.false_eq_true, if_false, ite_false]
          have hd := (cs.dropWhile_sublist (fun d => !pyIsSpace d)).length_le
          rw [ih m' (cs.dropWhile (fun d => !pyIsSpace d)) (by omega) (by omega)]

/-- Python `' '.join(tokens)`. -/
def joinSpace : List (List Char) → List Char
  | [] => []
  | [t] => t
  | t :: ts => t ++ ' ' :: joinSpace ts

/-- Python `' '.join(s.split())`: collapse whitespace runs to single spaces. -/
def collapseWs (l : List Char) : List Char :=
  joinSpace (pySplit l)

/-- Digit-string to number, as Python `int()` on a `\d+` match. -/
def natOfDigits (l : List Char) : Nat :=
  l.foldl (fun n c => n * 10 + (c.toNat - '0'.toNat)) 0

/-- `needle` occurs at the start of `hay`. -/
def listBegins : List Char → List Char → Bool
  | [], _ => true
  | _ :: _, [] => false
  | n :: ns, h :: hs => decide (n = h) && listBegins ns hs

/-- Python `needle in hay` substring containment. -/
def listContains (needle : List Char) : List Char → Bool
  | [] => needle.isEmpty
  | h :: t => listBegins needle (h :: t) || listContains needle t

/-! ## `RateLimiter` (src/utils/rate_limiter.py)

`self.requests` is a `defaultdict(deque)`; we model it as an
association list in insertion order.  `lookupW` is a plain lookup;
`setW` writes a key's window, appending the key at the end when absent
(exactly the `defaultdict` insertion side effect). -/

/-- Lookup in the identifier → window map. -/
def lookupW : List (String × List Int) → String → Option (List Int)
  | [], _ => none
  | (k, v) :: rest, key => if k = key then some v else lookupW rest key

/-- Write a key's window; insert at the end when the key is absent. -/
def setW : List (String × List Int) → String → List Int → List (String × List Int)
  | [], key, w => [(key, w)]
  | (k, v) :: rest, key, w =>
    if k = key then (k, w) :: rest else (k, v) :: setW rest key w

/-- State of `RateLimiter.__init__`. -/
structure RateLimiter where
  max_requests : Nat
  time_window : Int
  requests : List (String × List Int)
deriving Repr, DecidableEq

/-- The window currently associated with `key` (a missing key reads as empty,
as with `defaultdict`). -/
def windowOf (st : RateLimiter) (key : String) : List Int :=
  (lookupW st.requests key).getD []

/-- `RateLimiter.check_rate_limit`: evict the stale prefix
(`while user_requests and user_requests[0] <= current_time - self.time_window`),
deny without appending when at capacity, otherwise append `now`. -/
def checkRateLimit (st : RateLimiter) (key : String) (now : Int) : Bool × RateLimiter :=
  let w := windowOf st key
  let w' := w.dropWhile (fun t => decide (t ≤ now - st.time_window))
  if st.max_requests ≤ w'.length then
    (false, { st with requests := setW st.requests key w' })
  else
    (true, { st with requests := setW st.requests key (w' ++ [now]) })

/-- `RateLimiter.get_remaining_requests`: evict the stale prefix, then
`max(0, max_requests - len)` (truncated subtraction on `Nat`). -/
def getRemainingRequests (st : RateLimiter) (key : String) (now : Int) : Nat × RateLimiter :=
  let w := windowOf st key
  let w' := w.dropWhile (fun t => decide (t ≤ now - st.time_window))
  (st.max_requests - w'.length, { st with requests := setW st.requests key w' })

/-- `RateLimiter.get_reset_time`: `0` for an empty window (the
`defaultdict` access still inserts the key), else evict and report
`window[0] + time_window - now` when at capacity. -/
def getResetTime (st : RateLimiter) (key : String) (now : Int) : Int × RateLimiter :=
  let w := windowOf st key
  if w.isEmpty then
    (0, { st with requests := setW st.requests key w })
  else
    let w' := w.dropWhile (fun t => decide (t ≤ now - st.time_window))
    if w'.length < st.max_requests then
      (0, { st with requests := setW st.requests key w' })
    else
      ((w'.headD 0) + st.time_window - now, { st with requests := setW st.requests key w' })

/-- `RateLimiter.get_stats`: `(total_users_tracked, active_users,
total_recent_requests)`.  A query-time filter; no state is mutated. -/
def getStats (st : RateLimiter) (now : Int) : Nat × Nat × Nat :=
  let recent := fun (w : List Int) =>
    (w.filter (fun t => decide (now - st.time_window < t))).length
  (st.requests.length,
   (st.requests.filter (fun p => decide (0 < recent p.2))).length,
   ((st.requests.filter (fun p => decide (0 < recent p.2))).map (fun p => recent p.2)).sum)

/-- The map transform of `RateLimiter.cleanup_old_entries`: trim each
window with the looser threshold `now - time_window * 2`, then drop
identifiers left empty. -/
def cleanupRequests (now tw : Int) (m : List (String × List Int)) : List (String × List Int) :=
  (m.map (fun p => (p.1, p.2.dropWhile (fun t => decide (t ≤ now - tw * 2))))).filter
    (fun p => !p.2.isEmpty)

/-- `RateLimiter.cleanup_old_entries`. -/
def cleanupOldEntries (st : RateLimiter) (now : Int) : RateLimiter :=
  { st with requests := cleanupRequests now st.time_window st.requests }

/-- State of `GlobalRateLimiter.__init__`. -/
structure GlobalRateLimiter where
  max_requests_per_minute : Nat
  requests : List Int
deriving Repr, DecidableEq

/-- `GlobalRateLimiter.check_global_rate_limit`: same algorithm over one
unkeyed sequence with a fixed 60-second window. -/
def checkGlobalRateLimit (g : GlobalRateLimiter) (now : Int) : Bool × GlobalRateLimiter :=
  let w' := g.requests.dropWhile (fun t => decide (t ≤ now - 60))
  if g.max_requests_per_minute ≤ w'.length then
    (false, { g with requests := w' })
  else
    (true, { g with requests := w' ++ [now] })

/-! ### Map lemmas -/

theorem lookupW_setW_self (m : List (String × List Int)) (key : String) (w : List Int) :
    lookupW (setW m key w) key = some w := by
  induction m with
  | nil => simp [setW, lookupW]
  | cons p rest ih =>
    obtain ⟨k, v⟩ := p
    by_cases h : k = key
    · simp [setW, lookupW, h]
    · simp [setW, lookupW, h, ih]

theorem setW_eq_append (m : List (String × List Int)) (key : String) (w : List Int)
    (h : lookupW m key = none) : setW m key w = m ++ [(key, w)] := by
  induction m with
  | nil => simp [setW]
  | cons p rest ih =>
    obtain ⟨k, v⟩ := p
    by_cases hk : k = key
    · simp [lookupW, hk] at h
    · simp only [lookupW, hk, if_false, ite_false] at h
      simp [setW, hk, ih h]

theorem lookupW_mem (m : List (String × List Int)) (key : String) (w : List Int)
    (h : lookupW m key = some w) : (key, w) ∈ m := by
  induction m with
  | nil => simp [lookupW] at h
  | cons p rest ih =>
    obtain ⟨k, v⟩ := p
    by_cases hk : k = key
    · subst hk
      simp only [lookupW, if_true, ite_true, Option.some.injEq] at h
      subst h; exact List.mem_cons_self _ _
    · simp only [lookupW, hk, if_false, ite_false] at h
      exact List.mem_cons_of_mem _ (ih h)

theorem lookupW_append_none (m1 m2 : List (String × List Int)) (key : String)
    (h : lookupW m1 key = none) : lookupW (m1 ++ m2) key = lookupW m2 key := by
  induction m1 with
  | nil => simp
  | cons p rest ih =>
    obtain ⟨k, v⟩ := p
    by_cases hk : k = key
    · simp [lookupW, hk] at h
    · simp only [lookupW, hk, if_false, ite_false] at h
      simp only [List.cons_append, lookupW, hk, if_false, ite_false]
      exact ih h

theorem lookupW_cleanupRequests_none (now tw : Int) (m : List (String × List Int)) (key : String)
    (h : lookupW m key = none) : lookupW (cleanupRequests now tw m) key = none := by
  induction m with
  | nil => simp [cleanupRequests, lookupW]
  | cons p rest ih =>
    obtain ⟨k, v⟩ := p
    by_cases hk : k = key
    · simp [lookupW, hk] at h
    · simp only [lookupW, hk, if_false, ite_false] at h
      unfold cleanupRequests at ih ⊢
      simp only [List.map_cons, List.filter_cons]
      by_cases he : (!(v.dropWhile (fun t => decide (t ≤ now - tw * 2))).isEmpty) = true
      · rw [if_pos he]
        simp only [lookupW, hk, if_false, ite_false]
        exact ih h
      · rw [if_neg he]
        exact ih h

/-- On a time-ordered window, trimming the stale prefix leaves only
timestamps beyond the threshold. -/
theorem mem_dropWhile_gt {th : Int} {l : List Int} (hl : l.Pairwise (· ≤ ·)) :
    ∀ t ∈ l.dropWhile (fun t => decide (t ≤ th)), th < t := by
  induction l with
  | nil => simp
  | cons c cs ih =>
    rw [List.pairwise_cons] at hl
    intro t ht
    rw [List.dropWhile_cons] at ht
    by_cases hc : c ≤ th
    · simp only [hc, decide_True] at ht
      exact ih hl.2 t ht
    · simp only [hc, decide_False] at ht
      rcases List.mem_cons.mp ht with rfl | hmem
      · omega
      · have := hl.1 t hmem; omega

/-! ## Claims about the rate limiter -/

/-- C1: `check_rate_limit` first evicts every timestamp at or before
`now - time_window`, then denies without appending when the remaining
count is at least `max_requests`, and otherwise appends `now` and
admits; with `max_requests = 2`, `time_window = 60`, admissions for one
identifier at times 0, 10, 20 return true, true, false and a fourth
call at 61 returns true. -/
theorem checkRateLimit_evicts_then_decides :
    (∀ (st : RateLimiter) (key : String) (now : Int),
      (checkRateLimit st key now).1 =
        decide (((windowOf st key).dropWhile
          (fun t => decide (t ≤ now - st.time_window))).length < st.max_requests) ∧
      windowOf (checkRateLimit st key now).2 key =
        ((windowOf st key).dropWhile (fun t => decide (t ≤ now - st.time_window))) ++
          (if ((windowOf st key).dropWhile
                (fun t => decide (t ≤ now - st.time_window))).length < st.max_requests
           then [now] else [])) ∧
    ((checkRateLimit ⟨2, 60, []⟩ "u1" 0).1 = true ∧
     (checkRateLimit (checkRateLimit ⟨2, 60, []⟩ "u1" 0).2 "u1" 10).1 = true ∧
     (checkRateLimit (checkRateLimit (checkRateLimit ⟨2, 60, []⟩ "u1" 0).2 "u1" 10).2 "u1" 20).1
        = false ∧
     (checkRateLimit (checkRateLimit (checkRateLimit
        (checkRateLimit ⟨2, 60, []⟩ "u1" 0).2 "u1" 10).2 "u1" 20).2 "u1" 61).1 = true) := by
  constructor
  · intro st key now
    unfold checkRateLimit
    by_cases h : st.max_requests ≤
        ((windowOf st key).dropWhile (fun t => decide (t ≤ now - st.time_window))).length
    · have h' : ¬ ((windowOf st key).dropWhile
          (fun t => decide (t ≤ now - st.time_window))).length < st.max_requests := by omega
      rw [if_pos h]
      refine ⟨by simp [h'], ?_⟩
      rw [if_neg h']
      simp [windowOf, lookupW_setW_self]
    · have h' : ((windowOf st key).dropWhile
          (fun t => decide (t ≤ now - st.time_window))).length < st.max_requests := by omega
      rw [if_neg h]
      refine ⟨by simp [h'], ?_⟩
      rw [if_pos h']
      simp [windowOf, lookupW_setW_self]
  · decide

/-- C2 counterexample: `cleanup_old_entries` uses the looser threshold
`now - 2 * time_window`, so immediately after it runs at `now = 100`
with `time_window = 60` the timestamp `0` is retained although
`0 > now - time_window` fails — refuting "after any operation every
retained timestamp satisfies `timestamp > now - window_seconds`". -/
theorem cleanup_retains_stale_timestamp :
    windowOf (cleanupOldEntries ⟨10, 60, [("u", [0])]⟩ 100) "u" = [0] ∧
    ¬ ((0 : Int) > 100 - 60) := by
  decide

/-- C2 amended: for a time-ordered state and a positive window, the
*admission-path* operations (`check_rate_limit`,
`get_remaining_requests`, `get_reset_time`) leave only timestamps with
`t > now - time_window` in the touched identifier's window, while
`cleanup_old_entries` only guarantees the looser bound
`t > now - 2 * time_window` (and `get_stats` mutates nothing). -/
theorem eviction_bounds (st : RateLimiter) (key : String) (now : Int)
    (hs : ∀ p ∈ st.requests, p.2.Pairwise (· ≤ ·)) (hw : 0 < st.time_window) :
    (∀ t ∈ windowOf (checkRateLimit st key now).2 key, now - st.time_window < t) ∧
    (∀ t ∈ windowOf (getRemainingRequests st key now).2 key, now - st.time_window < t) ∧
    (∀ t ∈ windowOf (getResetTime st key now).2 key, now - st.time_window < t) ∧
    (∀ p ∈ (cleanupOldEntries st now).requests, ∀ t ∈ p.2, now - st.time_window * 2 < t) := by
  have hwnd : (windowOf st key).Pairwise (· ≤ ·) := by
    unfold windowOf
    cases h : lookupW st.requests key with
    | none => simp
    | some w => exact hs _ (lookupW_mem _ _ _ h)
  have hdrop : ∀ t ∈ (windowOf st key).dropWhile
      (fun t => decide (t ≤ now - st.time_window)), now - st.time_window < t :=
    mem_dropWhile_gt hwnd
  refine ⟨?_, ?_, ?_, ?_⟩
  · intro t ht
    unfold checkRateLimit at ht
    by_cases h : st.max_requests ≤
        ((windowOf st key).dropWhile (fun t => decide (t ≤ now - st.time_window))).length
    · simp only [h, if_true, ite_true] at ht
      simp only [windowOf, lookupW_setW_self, Option.getD_some] at ht
      exact hdrop t ht
    · simp only [h, if_false, ite_false] at ht
      simp only [windowOf, lookupW_setW_self, Option.getD_some, List.mem_append,
        List.mem_singleton] at ht
      rcases ht with ht | rfl
      · exact hdrop t ht
      · omega
  · intro t ht
    unfold getRemainingRequests at ht
    simp only [windowOf, lookupW_setW_self, Option.getD_some] at ht
    exact hdrop t ht
  · intro t ht
    unfold getResetTime at ht
    by_cases h0 : (windowOf st key).isEmpty = true
    · rw [if_pos h0] at ht
      simp only [windowOf, lookupW_setW_self, Option.getD_some] at ht
      rw [List.isEmpty_iff] at h0
      rw [windowOf] at h0
      rw [h0] at ht
      simp at ht
    · rw [if_neg h0] at ht
      by_cases h1 : ((windowOf st key).dropWhile
          (fun t => decide (t ≤ now - st.time_window))).length < st.max_requests
      · rw [if_pos h1] at ht
        simp only [windowOf, lookupW_setW_self, Option.getD_some] at ht
        exact hdrop t ht
      · rw [if_neg h1] at ht
        simp only [windowOf, lookupW_setW_self, Option.getD_some] at ht
        exact hdrop t ht
  · intro p hp t ht
    unfold cleanupOldEntries cleanupRequests at hp
    rw [List.mem_filter] at hp
    rw [List.mem_map] at hp
    obtain ⟨⟨q, hq, rfl⟩, -⟩ := hp
    exact mem_dropWhile_gt (hs q hq) t ht

/-- Witness for `eviction_bounds` at a concrete sorted state. -/
theorem eviction_bounds_witness :
    ((∀ p ∈ ([("u", [0, 10])] : List (String × List Int)), p.2.Pairwise (· ≤ ·)) ∧
      (0 : Int) < 60) ∧
    (∀ t ∈ windowOf (checkRateLimit ⟨2, 60, [("u", [0, 10])]⟩ "u" 61).2 "u", (61 : Int) - 60 < t) :=
  ⟨⟨by decide, by decide⟩,
   (eviction_bounds ⟨2, 60, [("u", [0, 10])]⟩ "u" 61 (by decide) (by decide)).1⟩

/-- C10: reading `get_remaining_requests` / `get_reset_time` for an
identifier absent from the map returns `max_requests` / `0` but, via the
`defaultdict` access, inserts the identifier with an empty window, so
`get_stats`'s `total_users_tracked` grows by one; the empty entry is
removed by a `cleanup_old_entries` pass. -/
theorem missing_key_read_inserts (st : RateLimiter) (key : String) (now : Int)
    (h : lookupW st.requests key = none) :
    (getRemainingRequests st key now).1 = st.max_requests ∧
    lookupW (getRemainingRequests st key now).2.requests key = some [] ∧
    (getStats (getRemainingRequests st key now).2 now).1 = (getStats st now).1 + 1 ∧
    (getResetTime st key now).1 = 0 ∧
    lookupW (getResetTime st key now).2.requests key = some [] ∧
    lookupW (cleanupOldEntries (getRemainingRequests st key now).2 now).requests key = none := by
  have hwnd : windowOf st key = [] := by simp [windowOf, h]
  have hset : setW st.requests key [] = st.requests ++ [(key, [])] := setW_eq_append _ _ _ h
  refine ⟨?_, ?_, ?_, ?_, ?_, ?_⟩
  · simp [getRemainingRequests, hwnd]
  · simp [getRemainingRequests, hwnd, lookupW_setW_self]
  · simp [getRemainingRequests, getStats, hwnd, hset]
  · simp [getResetTime, hwnd]
  · simp [getResetTime, hwnd, lookupW_setW_self]
  · have hs2 : (getRemainingRequests st key now).2 =
        { st with requests := st.requests ++ [(key, [])] } := by
      simp [getRemainingRequests, hwnd, hset]
    rw [hs2]
    unfold cleanupOldEntries cleanupRequests
    simp only [List.map_append, List.filter_append]
    have hnone := lookupW_cleanupRequests_none now st.time_window st.requests key h
    unfold cleanupRequests at hnone
    rw [lookupW_append_none _ _ _ hnone]
    simp [lookupW]

/-- Witness for `missing_key_read_inserts` at the empty initial state. -/
theorem missing_key_read_inserts_witness :
    lookupW (RateLimiter.requests ⟨5, 300, []⟩) "alice" = none ∧
    (getRemainingRequests ⟨5, 300, []⟩ "alice" 0).1 = 5 :=
  ⟨by decide, (missing_key_read_inserts ⟨5, 300, []⟩ "alice" 0 (by decide)).1⟩

/-! ## `FactChecker._clean_claim` (src/bot/fact_checker.py)

Each `re.sub` pass of `_clean_claim` is embedded as a matcher that,
at a given position, either fails or returns the number of consumed
characters together with the replacement text (the capture group for
the emphasis patterns, empty otherwise), plus a driver `reSub`
performing the leftmost non-overlapping scan of Python `re.sub`.
The backtracking behaviour of the specific patterns is reproduced:
e.g. for `\*{1,2}([^*]*)\*{1,2}` on `"**abc"` the opening quantifier
backtracks from two stars to one, matching `"**"` with an empty group,
exactly as Python does. -/

/-- The backquote character (0x60), written numerically. -/
def btick : Char := Char.ofNat 96

/-- Regex `\w` (ASCII part): letters, digits, underscore. -/
def isWordChar (c : Char) : Bool :=
  c.isAlpha || c.isDigit || c = '_'

/-- Leftmost non-overlapping substitution driver (Python `re.sub`).
`fuel` bounds the scan; a matcher result `(k, rep)` stands for a match
of `k ≥ 1` consumed characters replaced by `rep`. -/
def reSub (m : List Char → Option (Nat × List Char)) : Nat → List Char → List Char
  | _, [] => []
  | 0, l => l
  | fuel + 1, c :: cs =>
    match m (c :: cs) with
    | some (k, rep) => rep ++ reSub m fuel (List.drop (k - 1) cs)
    | none => c :: reSub m fuel cs

/-- `<@[!&]?\d+>` at the current position (user/role mention). -/
def matchMention (l : List Char) : Option (Nat × List Char) :=
  match l with
  | c1 :: c2 :: rest =>
    if c1 = '<' ∧ c2 = '@' then
      let (rest2, opn) :=
        match rest with
        | c :: cs => if c = '!' ∨ c = '&' then (cs, 3) else (rest, 2)
        | [] => (rest, 2)
      let ds := rest2.takeWhile Char.isDigit
      match rest2.dropWhile Char.isDigit with
      | '>' :: _ => if ds.isEmpty then none else some (opn + ds.length + 1, [])
      | _ => none
    else none
  | _ => none

/-- `<#\d+>` at the current position (channel reference). -/
def matchChannel (l : List Char) : Option (Nat × List Char) :=
  match l with
  | c1 :: c2 :: rest =>
    if c1 = '<' ∧ c2 = '#' then
      let ds := rest.takeWhile Char.isDigit
      match rest.dropWhile Char.isDigit with
      | '>' :: _ => if ds.isEmpty then none else some (2 + ds.length + 1, [])
      | _ => none
    else none
  | _ => none

/-- `<:\w+:\d+>` at the current position (custom emoji). -/
def matchEmoji (l : List Char) : Option (Nat × List Char) :=
  match l with
  | c1 :: c2 :: rest =>
    if c1 = '<' ∧ c2 = ':' then
      let ws := rest.takeWhile isWordChar
      match rest.dropWhile isWordChar with
      | ':' :: r3 =>
        let ds := r3.takeWhile Char.isDigit
        match r3.dropWhile Char.isDigit with
        | '>' :: _ =>
          if ws.isEmpty ∨ ds.isEmpty then none
          else some (2 + ws.length + 1 + ds.length + 1, [])
        | _ => none
      | _ => none
    else none
  | _ => none

/-- Does the list start with three backquotes? -/
def startsTriple : List Char → Bool
  | c1 :: c2 :: c3 :: _ => c1 = btick && c2 = btick && c3 = btick
  | _ => false

/-- Index of the first occurrence of three consecutive backquotes. -/
def findTriple : List Char → Option Nat
  | [] => none
  | c :: cs => if startsTriple (c :: cs) then some 0 else (findTriple cs).map (· + 1)

/-- ```` ```[\s\S]*?``` ```` at the current position (fenced code block;
the lazy inner quantifier stops at the first closing fence). -/
def matchFence (l : List Char) : Option (Nat × List Char) :=
  match l with
  | c1 :: c2 :: c3 :: rest =>
    if c1 = btick ∧ c2 = btick ∧ c3 = btick then
      match findTriple rest with
      | some i => some (3 + i + 3, [])
      | none => none
    else none
  | _ => none

/-- `` `[^`]*` `` at the current position (inline code). -/
def matchInline (l : List Char) : Option (Nat × List Char) :=
  match l with
  | c :: cs =>
    if c = btick then
      let inner := cs.takeWhile (fun d => decide (d ≠ btick))
      match cs.dropWhile (fun d => decide (d ≠ btick)) with
      | d :: _ => if d = btick then some (1 + inner.length + 1, []) else none
      | [] => none
    else none
  | _ => none

/-- `e{1,2}([^e]*)e{1,2}` for an emphasis character `e` (`*` for
bold/italic, `_` for underline), replaced by the capture group.
Matches Python's backtracking: a double opener whose inner run reaches
end-of-string backs off to a single opener, closing on the second
marker with an empty group. -/
def matchEmph (e : Char) (l : List Char) : Option (Nat × List Char) :=
  match l with
  | c :: cs =>
    if c = e then
      match cs with
      | c2 :: cs2 =>
        if c2 = e then
          let inner := cs2.takeWhile (fun d => decide (d ≠ e))
          match cs2.dropWhile (fun d => decide (d ≠ e)) with
          | d1 :: d2 :: _ =>
            if d1 = e ∧ d2 = e then some (2 + inner.length + 2, inner)
            else if d1 = e then some (2 + inner.length + 1, inner)
            else none
          | [d1] =>
            if d1 = e then some (2 + inner.length + 1, inner) else none
          | [] => some (2, [])
        else
          let inner := cs.takeWhile (fun d => decide (d ≠ e))
          match cs.dropWhile (fun d => decide (d ≠ e)) with
          | d1 :: d2 :: _ =>
            if d1 = e ∧ d2 = e then some (1 + inner.length + 2, inner)
            else if d1 = e then some (1 + inner.length + 1, inner)
            else none
          | [d1] =>
            if d1 = e then some (1 + inner.length + 1, inner) else none
          | [] => none
      | [] => none
    else none
  | _ => none

/-- `~~([^~]*)~~` at the current position (strikethrough), replaced by
the capture group. -/
def matchStrike (l : List Char) : Option (Nat × List Char) :=
  match l with
  | c1 :: c2 :: rest =>
    if c1 = '~' ∧ c2 = '~' then
      let inner := rest.takeWhile (fun d => decide (d ≠ '~'))
      match rest.dropWhile (fun d => decide (d ≠ '~')) with
      | d1 :: d2 :: _ =>
        if d1 = '~' ∧ d2 = '~' then some (2 + inner.length + 2, inner) else none
      | _ => none
    else none
  | _ => none

/-- `FactChecker._clean_claim`: the eight `re.sub` passes in source
order, then whitespace collapse and strip. -/
def cleanClaim (s : String) : String :=
  let l1 := reSub matchMention s.data.length s.data
  let l2 := reSub matchChannel l1.length l1
  let l3 := reSub matchEmoji l2.length l2
  let l4 := reSub matchFence l3.length l3
  let l5 := reSub matchInline l4.length l4
  let l6 := reSub (matchEmph '*') l5.length l5
  let l7 := reSub (matchEmph '_') l6.length l6
  let l8 := reSub matchStrike l7.length l7
  String.mk (pyStrip (collapseWs l8))

/-! ### Normalization lemmas -/

/-- Characters able to start a match of any `_clean_claim` pattern. -/
def isMarkupChar (c : Char) : Bool :=
  c = '<' || c = btick || c = '*' || c = '_' || c = '~'

theorem matchMention_none {c : Char} (cs : List Char) (h : ¬ c = '<') :
    matchMention (c :: cs) = none := by
  cases cs <;> simp [matchMention, h]

theorem matchChannel_none {c : Char} (cs : List Char) (h : ¬ c = '<') :
    matchChannel (c :: cs) = none := by
  cases cs <;> simp [matchChannel, h]

theorem matchEmoji_none {c : Char} (cs : List Char) (h : ¬ c = '<') :
    matchEmoji (c :: cs) = none := by
  cases cs <;> simp [matchEmoji, h]

theorem matchFence_none {c : Char} (cs : List Char) (h : ¬ c = btick) :
    matchFence (c :: cs) = none := by
  cases cs with
  | nil => simp [matchFence]
  | cons c2 cs2 => cases cs2 <;> simp [matchFence, h]

theorem matchInline_none {c : Char} (cs : List Char) (h : ¬ c = btick) :
    matchInline (c :: cs) = none := by
  simp [matchInline, h]

theorem matchEmph_none {e c : Char} (cs : List Char) (h : ¬ c = e) :
    matchEmph e (c :: cs) = none := by
  simp [matchEmph, h]

theorem matchStrike_none {c : Char} (cs : List Char) (h : ¬ c = '~') :
    matchStrike (c :: cs) = none := by
  cases cs <;> simp [matchStrike, h]

/-- A pass whose matcher cannot fire on any character of `l` is the identity. -/
theorem reSub_id (m : List Char → Option (Nat × List Char))
    (hm : ∀ (c : Char) (cs : List Char), isMarkupChar c = false → m (c :: cs) = none) :
    ∀ (fuel : Nat) (l : List Char), (∀ c ∈ l, isMarkupChar c = false) → reSub m fuel l = l := by
  intro fuel
  induction fuel with
  | zero => intro l _; cases l <;> simp [reSub]
  | succ n ih =>
    intro l hl
    cases l with
    | nil => simp [reSub]
    | cons c cs =>
      have hc := hl c (List.mem_cons_self _ _)
      simp only [reSub, hm c cs hc]
      rw [ih cs (fun d hd => hl d (List.mem_cons_of_mem _ hd))]

theorem takeWhile_append_all (p : Char → Bool) (t l : List Char)
    (h : ∀ c ∈ t, p c = true) :
    List.takeWhile p (t ++ l) = t ++ List.takeWhile p l := by
  induction t with
  | nil => simp
  | cons c cs ih =>
    have hc := h c (List.mem_cons_self _ _)
    simp only [List.cons_append, List.takeWhile_cons, hc, if_true, ite_true, List.cons.injEq,
      true_and]
    exact ih (fun d hd => h d (List.mem_cons_of_mem _ hd))

theorem dropWhile_append_all (p : Char → Bool) (t l : List Char)
    (h : ∀ c ∈ t, p c = true) :
    List.dropWhile p (t ++ l) = List.dropWhile p l := by
  induction t with
  | nil => simp
  | cons c cs ih =>
    have hc := h c (List.mem_cons_self _ _)
    simp only [List.cons_append, List.dropWhile_cons, hc, if_true, ite_true]
    exact ih (fun d hd => h d (List.mem_cons_of_mem _ hd))

theorem pySplit_cons_space {c : Char} (l : List Char) (h : pyIsSpace c = true) :
    pySplit (c :: l) = pySplit l := by
  show pySplitF (c :: l).length (c :: l) = pySplitF l.length l
  rw [List.length_cons, pySplitF]
  simp [h]

theorem pySplit_token (t l : List Char) (ht : t ≠ [])
    (hns : ∀ c ∈ t, pyIsSpace c = false) :
    pySplit (t ++ l) = (t ++ l.takeWhile (fun d => !pyIsSpace d)) ::
      pySplit (l.dropWhile (fun d => !pyIsSpace d)) := by
  cases t with
  | nil => exact absurd rfl ht
  | cons c cs =>
    have hc := hns c (List.mem_cons_self _ _)
    have hcs : ∀ d ∈ cs, (fun d => !pyIsSpace d) d = true := by
      intro d hd
      simp [hns d (List.mem_cons_of_mem _ hd)]
    rw [List.cons_append]
    show pySplitF (c :: (cs ++ l)).length (c :: (cs ++ l)) = _
    rw [List.length_cons, pySplitF]
    simp only [hc, Bool.false_eq_true, if_false, ite_false]
    rw [takeWhile_append_all _ cs l hcs, dropWhile_append_all _ cs l hcs]
    have hb : (l.dropWhile (fun d => !pyIsSpace d)).length ≤ (cs ++ l).length := by
      have := (l.dropWhile_sublist (fun d => !pyIsSpace d)).length_le
      simp only [List.length_append]; omega
    rw [pySplitF_eq (cs ++ l).length (l.dropWhile (fun d => !pyIsSpace d)).length _ hb
      (Nat.le_refl _)]
    simp [pySplit]

theorem pySplit_cons_nonspace {c : Char} (cs : List Char) (hc : pyIsSpace c = false) :
    pySplit (c :: cs) = (c :: cs.takeWhile (fun d => !pyIsSpace d)) ::
      pySplit (cs.dropWhile (fun d => !pyIsSpace d)) := by
  have := pySplit_token [c] cs (by simp)
    (by intro d hd; simp only [List.mem_singleton] at hd; subst hd; exact hc)
  simpa using this

theorem pySplit_joinSpace (ts : List (List Char))
    (h : ∀ t ∈ ts, t ≠ [] ∧ ∀ c ∈ t, pyIsSpace c = false) :
    pySplit (joinSpace ts) = ts := by
  induction ts with
  | nil => simp [joinSpace, pySplit, pySplitF]
  | cons t ts' ih =>
    obtain ⟨ht, hns⟩ := h t (List.mem_cons_self _ _)
    cases ts' with
    | nil =>
      show pySplit t = [t]
      have := pySplit_token t [] ht hns
      simpa [pySplit] using this
    | cons u ts'' =>
      show pySplit (t ++ ' ' :: joinSpace (u :: ts'')) = t :: u :: ts''
      rw [pySplit_token t (' ' :: joinSpace (u :: ts'')) ht hns]
      have hsp : pyIsSpace ' ' = true := by decide
      simp only [List.takeWhile_cons, List.dropWhile_cons, hsp, Bool.not_true,
        Bool.false_eq_true, if_false, ite_false, List.append_nil]
      rw [pySplit_cons_space _ hsp]
      rw [ih (fun v hv => h v (List.mem_cons_of_mem _ hv))]

/-- Every token produced by `pySplit` is nonempty, whitespace-free, and
drawn from the input's characters. -/
theorem pySplit_tokens :
    ∀ (n : Nat) (l : List Char), l.length ≤ n →
      ∀ t ∈ pySplit l, t ≠ [] ∧ (∀ c ∈ t, pyIsSpace c = false) ∧ (∀ c ∈ t, c ∈ l) := by
  intro n
  induction n with
  | zero =>
    intro l hl t ht
    have : l = [] := List.length_eq_zero.mp (Nat.le_zero.mp hl)
    subst this
    simp [pySplit, pySplitF] at ht
  | succ n ih =>
    intro l hl t ht
    cases l with
    | nil => simp [pySplit, pySplitF] at ht
    | cons c cs =>
      by_cases hc : pyIsSpace c = true
      · rw [pySplit_cons_space cs hc] at ht
        have hlen : cs.length ≤ n := by
          simp only [List.length_cons] at hl; omega
        obtain ⟨h1, h2, h3⟩ := ih cs hlen t ht
        exact ⟨h1, h2, fun d hd => List.mem_cons_of_mem _ (h3 d hd)⟩
      · rw [pySplit_cons_nonspace cs (by simpa using hc)] at ht
        simp only [List.mem_cons] at ht
        rcases ht with rfl | ht
        · refine ⟨by simp, ?_, ?_⟩
          · intro d hd
            rcases List.mem_cons.mp hd with rfl | hd
            · simpa using hc
            · have hp := List.mem_takeWhile_imp hd
              simpa using hp
          · intro d hd
            rcases List.mem_cons.mp hd with rfl | hd
            · exact List.mem_cons_self _ _
            · exact List.mem_cons_of_mem _
                ((List.takeWhile_sublist (fun d => !pyIsSpace d)).mem hd)
        · have hlen : (cs.dropWhile (fun d => !pyIsSpace d)).length ≤ n := by
            have := (cs.dropWhile_sublist (fun d => !pyIsSpace d)).length_le
            simp only [List.length_cons] at hl; omega
          obtain ⟨h1, h2, h3⟩ := ih _ hlen t ht
          refine ⟨h1, h2, fun d hd => ?_⟩
          exact List.mem_cons_of_mem _
            ((cs.dropWhile_sublist (fun d => !pyIsSpace d)).mem (h3 d hd))

theorem joinSpace_append_single (xs : List (List Char)) (y : List Char) (h : xs ≠ []) :
    joinSpace (xs ++ [y]) = joinSpace xs ++ ' ' :: y := by
  induction xs with
  | nil => exact absurd rfl h
  | cons t ts ih =>
    cases ts with
    | nil => simp [joinSpace]
    | cons u ts' =>
      show joinSpace (t :: ((u :: ts') ++ [y])) = (t ++ ' ' :: joinSpace (u :: ts')) ++ ' ' :: y
      have : joinSpace (t :: ((u :: ts') ++ [y])) = t ++ ' ' :: joinSpace ((u :: ts') ++ [y]) := by
        cases ts' <;> simp [joinSpace]
      rw [this, ih (by simp)]
      simp

theorem joinSpace_reverse (ts : List (List Char)) :
    (joinSpace ts).reverse = joinSpace ((ts.map List.reverse).reverse) := by
  induction ts with
  | nil => simp [joinSpace]
  | cons t ts' ih =>
    cases ts' with
    | nil => simp [joinSpace]
    | cons u ts'' =>
      show (t ++ ' ' :: joinSpace (u :: ts'')).reverse = _
      have h1 : (t ++ ' ' :: joinSpace (u :: ts'')).reverse
          = (joinSpace (u :: ts'')).reverse ++ ' ' :: t.reverse := by
        simp
      have h2 : (List.map List.reverse (t :: u :: ts'')).reverse
          = (List.map List.reverse (u :: ts'')).reverse ++ [t.reverse] := by
        simp
      rw [h1, ih, h2, joinSpace_append_single _ _ (by simp)]

theorem joinSpace_dropWhile (ts : List (List Char))
    (h : ∀ t ∈ ts, t ≠ [] ∧ ∀ c ∈ t, pyIsSpace c = false) :
    (joinSpace ts).dropWhile pyIsSpace = joinSpace ts := by
  cases ts with
  | nil => simp [joinSpace]
  | cons t ts' =>
    obtain ⟨ht, hns⟩ := h t (List.mem_cons_self _ _)
    cases t with
    | nil => exact absurd rfl ht
    | cons c cs =>
      have hc := hns c (List.mem_cons_self _ _)
      have : ∃ r, joinSpace ((c :: cs) :: ts') = c :: r := by
        cases ts' <;> exact ⟨_, rfl⟩
      obtain ⟨r, hr⟩ := this
      rw [hr, List.dropWhile_cons, hc]
      simp

theorem pyStrip_joinSpace (ts : List (List Char))
    (h : ∀ t ∈ ts, t ≠ [] ∧ ∀ c ∈ t, pyIsSpace c = false) :
    pyStrip (joinSpace ts) = joinSpace ts := by
  unfold pyStrip
  rw [joinSpace_dropWhile ts h, joinSpace_reverse ts]
  have h' : ∀ t ∈ (ts.map List.reverse).reverse, t ≠ [] ∧ ∀ c ∈ t, pyIsSpace c = false := by
    intro t ht
    rw [List.mem_reverse, List.mem_map] at ht
    obtain ⟨u, hu, rfl⟩ := ht
    obtain ⟨h1, h2⟩ := h u hu
    exact ⟨by simpa using h1, fun c hc => h2 c (List.mem_reverse.mp hc)⟩
  rw [joinSpace_dropWhile _ h', ← joinSpace_reverse ts]
  simp

/-- `' '.join(s.split())` is idempotent. -/
theorem collapseWs_idem (l : List Char) : collapseWs (collapseWs l) = collapseWs l := by
  unfold collapseWs
  rw [pySplit_joinSpace (pySplit l)
    (fun t ht => by
      obtain ⟨h1, h2, _⟩ := pySplit_tokens l.length l (Nat.le_refl _) t ht
      exact ⟨h1, h2⟩)]

theorem pyStrip_collapseWs (l : List Char) : pyStrip (collapseWs l) = collapseWs l := by
  unfold collapseWs
  exact pyStrip_joinSpace (pySplit l)
    (fun t ht => by
      obtain ⟨h1, h2, _⟩ := pySplit_tokens l.length l (Nat.le_refl _) t ht
      exact ⟨h1, h2⟩)

/-- Characters of the collapsed string come from the input or are spaces. -/
theorem mem_collapseWs (l : List Char) (c : Char) (hc : c ∈ collapseWs l) :
    c ∈ l ∨ c = ' ' := by
  unfold collapseWs at hc
  have hmem : ∀ ts : List (List Char), c ∈ joinSpace ts →
      (∃ t ∈ ts, c ∈ t) ∨ c = ' ' := by
    intro ts
    induction ts with
    | nil => simp [joinSpace]
    | cons t ts' ih =>
      intro hjs
      cases ts' with
      | nil => exact Or.inl ⟨t, List.mem_cons_self _ _, hjs⟩
      | cons u ts'' =>
        rcases List.mem_append.mp hjs with hm | hm
        · exact Or.inl ⟨t, List.mem_cons_self _ _, hm⟩
        · rcases List.mem_cons.mp hm with rfl | hm
          · exact Or.inr rfl
          · rcases ih hm with ⟨v, hv, hcv⟩ | hsp
            · exact Or.inl ⟨v, List.mem_cons_of_mem _ hv, hcv⟩
            · exact Or.inr hsp
  rcases hmem (pySplit l) hc with ⟨t, ht, hct⟩ | hsp
  · obtain ⟨-, -, h3⟩ := pySplit_tokens l.length l (Nat.le_refl _) t ht
    exact Or.inl (h3 c hct)
  · exact Or.inr hsp

/-- On markup-free input every `_clean_claim` pass is the identity, so
`cleanClaim` reduces to whitespace collapsing. -/
theorem cleanClaim_eq_collapse (s : String) (h : ∀ c ∈ s.data, isMarkupChar c = false) :
    cleanClaim s = String.mk (collapseWs s.data) := by
  have hlt : ∀ c : Char, isMarkupChar c = false → (¬ c = '<') ∧ (¬ c = btick) ∧
      (¬ c = '*') ∧ (¬ c = '_') ∧ (¬ c = '~') := by
    intro c hc
    simp only [isMarkupChar, Bool.or_eq_false_iff, decide_eq_false_iff_not] at hc
    exact ⟨hc.1.1.1.1, hc.1.1.1.2, hc.1.1.2, hc.1.2, hc.2⟩
  simp only [cleanClaim]
  rw [reSub_id matchMention (fun c cs hc => matchMention_none cs (hlt c hc).1) _ _ h]
  rw [reSub_id matchChannel (fun c cs hc => matchChannel_none cs (hlt c hc).1) _ _ h]
  rw [reSub_id matchEmoji (fun c cs hc => matchEmoji_none cs (hlt c hc).1) _ _ h]
  rw [reSub_id matchFence (fun c cs hc => matchFence_none cs (hlt c hc).2.1) _ _ h]
  rw [reSub_id matchInline (fun c cs hc => matchInline_none cs (hlt c hc).2.1) _ _ h]
  rw [reSub_id (matchEmph '*') (fun c cs hc => matchEmph_none cs (hlt c hc).2.2.1) _ _ h]
  rw [reSub_id (matchEmph '_') (fun c cs hc => matchEmph_none cs (hlt c hc).2.2.2.1) _ _ h]
  rw [reSub_id matchStrike (fun c cs hc => matchStrike_none cs (hlt c hc).2.2.2.2) _ _ h]
  rw [pyStrip_collapseWs]

/-- C7 counterexample: `_clean_claim` is not idempotent.  Unwrapping the
emphasis in `"<@**1**>"` yields `"<@1>"`, which only the *second*
application recognises as a mention and deletes, so
`normalize(normalize(s)) ≠ normalize(s)`. -/
theorem cleanClaim_not_idempotent :
    cleanClaim "<@**1**>" = "<@1>" ∧
    cleanClaim (cleanClaim "<@**1**>") = "" ∧
    cleanClaim (cleanClaim "<@**1**>") ≠ cleanClaim "<@**1**>" := by
  refine ⟨by decide, by decide, by decide⟩

/-- C7 amended: normalization is idempotent on inputs free of the
markup-trigger characters `<`, backquote, `*`, `_`, `~` (where it
reduces to whitespace collapsing, which is idempotent); on general
input a second application can differ, because emphasis unwrapping may
expose new removable tokens. -/
theorem cleanClaim_idem_markup_free (s : String)
    (h : ∀ c ∈ s.data, isMarkupChar c = false) :
    cleanClaim (cleanClaim s) = cleanClaim s := by
  have h1 : cleanClaim s = String.mk (collapseWs s.data) := cleanClaim_eq_collapse s h
  have h2 : ∀ c ∈ (cleanClaim s).data, isMarkupChar c = false := by
    rw [h1]
    intro c hc
    rcases mem_collapseWs s.data c hc with hcl | rfl
    · exact h c hcl
    · decide
  rw [cleanClaim_eq_collapse _ h2, h1]
  show String.mk (collapseWs (collapseWs s.data)) = _
  rw [collapseWs_idem]

/-- Witness for `cleanClaim_idem_markup_free` on a concrete markup-free string. -/
theorem cleanClaim_idem_markup_free_witness :
    (∀ c ∈ "the  earth   is flat".data, isMarkupChar c = false) ∧
    cleanClaim (cleanClaim "the  earth   is flat") = cleanClaim "the  earth   is flat" :=
  ⟨by decide, cleanClaim_idem_markup_free "the  earth   is flat" (by decide)⟩

/-! ## `FactChecker` response parsing (src/bot/fact_checker.py)

`_parse_fact_check_response` extracts fields with `re.search`; each
pattern is embedded as a position scanner (`searchHdr`) plus an
anchored matcher for the part after the header, reproducing the
backtracking of the concrete patterns (`\s*` giving characters back to
`[^\n]+`, the lazy `(.*?)` stopping at the `SOURCES:`/`$` lookahead,
`$` also matching before a final newline since `re.MULTILINE` is not
set). -/

/-- Case-insensitive literal prefix (pattern given in lowercase);
returns the remainder on success. -/
def dropCI : List Char → List Char → Option (List Char)
  | [], l => some l
  | _ :: _, [] => none
  | p :: ps, c :: cs => if c.toLower = p then dropCI ps cs else none

/-- Anchored `\s*([^\n]+)`: greedy whitespace, backtracking until at
least one non-newline character can start the group. -/
def wsGroupNonNl : List Char → Option (List Char)
  | [] => none
  | c :: cs =>
    if pyIsSpace c then
      match wsGroupNonNl cs with
      | some g => some g
      | none =>
        if c = '\n' then none
        else some ((c :: cs).takeWhile (fun d => decide (d ≠ '\n')))
    else
      if c = '\n' then none
      else some ((c :: cs).takeWhile (fun d => decide (d ≠ '\n')))

/-- Anchored `\s*(\d+)`. -/
def wsDigits : List Char → Option (List Char)
  | [] => none
  | c :: cs =>
    if pyIsSpace c then wsDigits cs
    else if c.isDigit then some ((c :: cs).takeWhile Char.isDigit)
    else none

/-- Lazy `(.*?)(?=SOURCES:|$)` with `re.DOTALL`, after the whitespace
run: stop at a case-insensitive `SOURCES:`, at end of text, or before a
final newline (`$` without `re.MULTILINE`). -/
def lazyUntilSources : List Char → List Char
  | [] => []
  | c :: cs =>
    if (dropCI "sources:".data (c :: cs)).isSome then []
    else if c = '\n' ∧ cs = [] then []
    else c :: lazyUntilSources cs

/-- Lazy `(.*?)$` with `re.DOTALL`: everything up to the end, except a
final newline. -/
def lazyToEnd : List Char → List Char
  | [] => []
  | c :: cs => if c = '\n' ∧ cs = [] then [] else c :: lazyToEnd cs

/-- `re.search` driver: try the anchored matcher at each position, left
to right; a failing tail matcher resumes the scan one position later. -/
def searchHdr (hdr : List Char) (after : List Char → Option (List Char)) :
    List Char → Option (List Char)
  | [] => none
  | c :: cs =>
    match dropCI hdr (c :: cs) with
    | some r =>
      match after r with
      | some g => some g
      | none => searchHdr hdr after cs
    | none => searchHdr hdr after cs

/-- `re.sub(r'\n+', ' ', …)` matcher: a newline run becomes one space. -/
def matchNlRun (l : List Char) : Option (Nat × List Char) :=
  match l with
  | c :: cs =>
    if c = '\n' then some (1 + (cs.takeWhile (fun d => decide (d = '\n'))).length, [' '])
    else none
  | _ => none

/-- `re.sub(r'\n+', ' ', …)`. -/
def subNlRuns (l : List Char) : List Char :=
  reSub matchNlRun l.length l

/-- Python `str.split('\n')` (keeps empty pieces). -/
def splitNl : List Char → List (List Char)
  | [] => [[]]
  | c :: cs =>
    if c = '\n' then [] :: splitNl cs
    else
      match splitNl cs with
      | t :: ts => (c :: t) :: ts
      | [] => [[c]]

/-- The character class of `re.sub(r'^[-•*\d+.\s]+', '', line)`. -/
def isBulletChar (c : Char) : Bool :=
  c = '-' || c = '•' || c = '*' || c.isDigit || c = '+' || c = '.' || pyIsSpace c

/-- The per-line cleanup loop of the `SOURCES`/`EVIDENCE` block: strip,
drop blank lines and lines starting (case-insensitively) with
`important`, strip leading bullet/numbering glyphs, keep what remains. -/
def cleanSourceLines : List (List Char) → List (List Char)
  | [] => []
  | ln :: rest =>
    let l1 := pyStrip ln
    if l1.isEmpty = false ∧ listBegins "important".data (l1.map Char.toLower) = false then
      let l2 := pyStrip (l1.dropWhile isBulletChar)
      if l2.isEmpty = false then l2 :: cleanSourceLines rest else cleanSourceLines rest
    else cleanSourceLines rest

/-- Result shape of `_parse_fact_check_response` (verify mode). -/
structure FactCheckResult where
  accuracy : String
  confidence : Nat
  explanation : String
  sources : List String
deriving Repr, DecidableEq

/-- `FactChecker._parse_fact_check_response`: defaults
`{'accuracy': 'Unknown', 'confidence': 0, 'explanation': '', 'sources': []}`,
each field overwritten when its header pattern matches.  (The `except`
branch of the source is unreachable: none of these regex operations
raises.) -/
def parseFactCheckResponse (response : String) : FactCheckResult :=
  let r := response.data
  { accuracy :=
      match searchHdr "accuracy:".data wsGroupNonNl r with
      | some g => String.mk (pyStrip g)
      | none => "Unknown"
    confidence :=
      match searchHdr "confidence:".data wsDigits r with
      | some d => natOfDigits d
      | none => 0
    explanation :=
      match searchHdr "explanation:".data
          (fun l => some (lazyUntilSources (l.dropWhile pyIsSpace))) r with
      | some g => String.mk (collapseWs (subNlRuns (pyStrip g)))
      | none => ""
    sources :=
      match searchHdr "sources:".data
          (fun l => some (lazyToEnd (l.dropWhile pyIsSpace))) r with
      | some g => ((cleanSourceLines (splitNl (pyStrip g))).map String.mk).take 4
      | none => [] }

/-- Result shape of `_parse_expose_response` (expose mode). -/
structure ExposeResult where
  expose_type : String
  confidence : Nat
  analysis : String
  evidence : List String
deriving Repr, DecidableEq

/-- `re.search(r'(\d+)%', …)`: first digit run immediately followed by
a percent sign. -/
def searchPercent : List Char → Option (List Char)
  | [] => none
  | c :: cs =>
    if c.isDigit then
      match (c :: cs).dropWhile Char.isDigit with
      | d :: _ =>
        if d = '%' then some ((c :: cs).takeWhile Char.isDigit) else searchPercent cs
      | [] => searchPercent cs
    else searchPercent cs

/-- `FactChecker._parse_expose_response` (the fallback used when the
service's reply is not valid JSON): keyword scan over the lowercased
text for the outcome, first `(\d+)%` token as confidence (default 50),
a ≤ 500-character prefix (ellipsis-suffixed if cut) as the analysis,
and an empty evidence list.  (The `except` branch of the source is
unreachable: none of these operations raises.) -/
def parseExposeResponse (response : String) : ExposeResult :=
  let lower := response.data.map Char.toLower
  { expose_type :=
      if listContains "debunked".data lower then "debunked"
      else if listContains "supported".data lower then "supported"
      else "unknown"
    confidence :=
      match searchPercent response.data with
      | some d => natOfDigits d
      | none => 50
    analysis :=
      if 500 < response.data.length then String.mk (response.data.take 500) ++ "..."
      else response
    evidence := [] }

/-! ## Claims about the response parser -/

/-- C3 counterexample: neither parser clamps confidence.  A raw
`CONFIDENCE: 250` yields 250 in the verify parser, and `250%` yields
250 in the expose fallback — both outside `[0, 100]`. -/
theorem confidence_not_clamped :
    (parseFactCheckResponse "CONFIDENCE: 250").confidence = 250 ∧
    ¬ (parseFactCheckResponse "CONFIDENCE: 250").confidence ≤ 100 ∧
    (parseExposeResponse "debunked with 250% certainty").confidence = 250 := by
  refine ⟨by decide, by decide, by decide⟩

/-- C3 amended: the parsed confidence is propagated verbatim — the
digits matched by `CONFIDENCE:\s*(\d+)` (so never negative), with no
clamping whatsoever, values above 100 included; absence of a parseable
value yields the defaults 0 (verify parser) and 50 (expose fallback). -/
theorem confidence_verbatim :
    (∀ s : String, (parseFactCheckResponse s).confidence =
      (match searchHdr "confidence:".data wsDigits s.data with
       | some d => natOfDigits d
       | none => 0)) ∧
    (parseFactCheckResponse "CONFIDENCE: 250").confidence = 250 ∧
    (parseFactCheckResponse "").confidence = 0 ∧
    (parseExposeResponse "").confidence = 50 := by
  refine ⟨fun s => rfl, by decide, by decide, by decide⟩

/-- C6 counterexample: on input with no extractable text the expose
fallback does *not* return confidence 0 with a fixed failure string —
it returns the default confidence 50 and echoes the raw text as the
analysis. -/
theorem expose_empty_not_failure_shape :
    (parseExposeResponse "").confidence = 50 ∧
    (parseExposeResponse "").confidence ≠ 0 ∧
    (parseExposeResponse "").analysis = "" := by
  refine ⟨by decide, by decide, by decide⟩

/-- C6 amended: both parsers are total functions returning a
well-formed result for every string (they never raise — the source's
`except` branches are unreachable); when nothing is extractable the
verify parser returns `('Unknown', 0, "", [])` and the expose fallback
returns `('unknown', 50, raw_text, [])`; the list field never exceeds
4 entries (verify) and is always empty (expose fallback). -/
theorem parser_totality :
    parseFactCheckResponse "" = ⟨"Unknown", 0, "", []⟩ ∧
    parseFactCheckResponse " \n  " = ⟨"Unknown", 0, "", []⟩ ∧
    parseExposeResponse "" = ⟨"unknown", 50, "", []⟩ ∧
    parseExposeResponse " \n  " = ⟨"unknown", 50, " \n  ", []⟩ ∧
    (∀ s : String, (parseFactCheckResponse s).sources.length ≤ 4) ∧
    (∀ s : String, (parseExposeResponse s).evidence = []) := by
  refine ⟨by decide, by decide, by decide, by decide, ?_, fun s => rfl⟩
  intro s
  show (match searchHdr "sources:".data
      (fun l => some (lazyToEnd (l.dropWhile pyIsSpace))) s.data with
    | some g => ((cleanSourceLines (splitNl (pyStrip g))).map String.mk).take 4
    | none => ([] : List String)).length ≤ 4
  cases searchHdr "sources:".data (fun l => some (lazyToEnd (l.dropWhile pyIsSpace))) s.data with
  | none => simp
  | some g =>
    simp only [List.length_take]
    omega

/-- C8: the verify field-header parse maps the scenario response to
`{accuracy: "Mostly True", confidence: 80, explanation: "Broadly
correct.", sources: ["Source A", "Source B"]}`; the `SOURCES` section
is split into lines, stripped of leading bullet/numbering glyphs, with
blank lines and `important…` lines discarded and the result truncated
to 4 entries in order (second concrete input), and no parse ever
yields more than 4 sources. -/
theorem verify_parse_scenario :
    parseFactCheckResponse
        "ACCURACY: Mostly True\nCONFIDENCE: 80\nEXPLANATION: Broadly correct.\nSOURCES: - Source A\n- Source B" =
      ⟨"Mostly True", 80, "Broadly correct.", ["Source A", "Source B"]⟩ ∧
    (parseFactCheckResponse
        "SOURCES: 1. A\n\nImportant note\n- B\n- C\n- D\n- E").sources = ["A", "B", "C", "D"] ∧
    (∀ s : String, (parseFactCheckResponse s).sources.length ≤ 4) ∧
    (∀ s : String, ∀ src ∈ (parseFactCheckResponse s).sources, src ≠ "") := by
  have hne : ∀ (lns : List (List Char)) (t : List Char), t ∈ cleanSourceLines lns → t ≠ [] := by
    intro lns
    induction lns with
    | nil => simp [cleanSourceLines]
    | cons ln rest ih =>
      intro t ht
      simp only [cleanSourceLines] at ht
      split at ht
      · split at ht
        · rcases List.mem_cons.mp ht with rfl | ht
          · intro hnil
            rename_i hkeep
            rw [hnil] at hkeep
            simp at hkeep
          · exact ih t ht
        · exact ih t ht
      · exact ih t ht
  refine ⟨by decide, by decide, ?_, ?_⟩
  · intro s
    show (match searchHdr "sources:".data
        (fun l => some (lazyToEnd (l.dropWhile pyIsSpace))) s.data with
      | some g => ((cleanSourceLines (splitNl (pyStrip g))).map String.mk).take 4
      | none => ([] : List String)).length ≤ 4
    cases searchHdr "sources:".data (fun l => some (lazyToEnd (l.dropWhile pyIsSpace))) s.data with
    | none => simp
    | some g =>
      simp only [List.length_take]
      omega
  · intro s src hsrc
    revert hsrc
    show src ∈ (match searchHdr "sources:".data
        (fun l => some (lazyToEnd (l.dropWhile pyIsSpace))) s.data with
      | some g => ((cleanSourceLines (splitNl (pyStrip g))).map String.mk).take 4
      | none => ([] : List String)) → src ≠ ""
    cases searchHdr "sources:".data (fun l => some (lazyToEnd (l.dropWhile pyIsSpace))) s.data with
    | none => simp
    | some g =>
      intro hsrc
      have hmem := (List.take_sublist 4 _).mem hsrc
      rw [List.mem_map] at hmem
      obtain ⟨t, htm, rfl⟩ := hmem
      have := hne _ t htm
      intro hcon
      apply this
      have : (String.mk t).data = String.data "" := by rw [hcon]
      simpa using this

/-- C9: the expose fallback's tiers — keyword classification over the
lowercased text (`debunked` before `supported`, else `unknown`), first
`(\d+)%` token as confidence with default 50, a ≤ 500-character
ellipsis-truncated prefix as analysis, and an always-empty evidence
list; headerless text containing `debunked` and `73%` parses to
`(debunked, 73, raw text, [])`. -/
theorem expose_fallback_parse :
    (∀ s : String, parseExposeResponse s =
      { expose_type :=
          if listContains "debunked".data (s.data.map Char.toLower) then "debunked"
          else if listContains "supported".data (s.data.map Char.toLower) then "supported"
          else "unknown"
        confidence :=
          match searchPercent s.data with
          | some d => natOfDigits d
          | none => 50
        analysis :=
          if 500 < s.data.length then String.mk (s.data.take 500) ++ "..." else s
        evidence := [] }) ∧
    parseExposeResponse
        "The viral post was thoroughly debunked by reviewers, with 73% certainty." =
      ⟨"debunked", 73,
       "The viral post was thoroughly debunked by reviewers, with 73% certainty.", []⟩ := by
  exact ⟨fun s => rfl, by decide⟩

set_option maxRecDepth 40000 in
/-- Witness for the expose fallback's ellipsis truncation at the 500
character boundary. -/
theorem expose_truncation_example :
    parseExposeResponse (String.mk (List.replicate 501 'x')) =
      ⟨"unknown", 50, String.mk (List.replicate 500 'x') ++ "...", []⟩ := by
  decide

/-! ## Pipeline (src/bot/discord_bot.py `on_message`, src/bot/fact_checker.py `check_claim`)

`on_message`'s automatic path (a non-bot, non-reply message with
auto-checking enabled) executes, in source order: the per-identifier
`check_rate_limit`, then `_should_fact_check`, then `_auto_fact_check`
(which calls `check_claim`: normalize, length-gate, external request,
parse).  The trigger detector is passed in as a boolean-valued
function, since only its position in the sequence matters here; the
bot's `GlobalRateLimiter` sequence is carried in the state to record
that no step of the pipeline ever touches it (the class is defined in
`src/utils/rate_limiter.py` but never instantiated or called). -/

/-- The mutable state the message pipeline could touch. -/
structure BotState where
  rate_limiter : RateLimiter
  global_limiter : GlobalRateLimiter
deriving Repr, DecidableEq

/-- How the automatic path of `on_message` terminates. -/
inductive AutoCheckOutcome
  | rateLimited
  | noTrigger
  | factChecked
deriving Repr, DecidableEq

/-- The automatic-analysis path of `FactCheckerBot.on_message`
(lines 82–88): rate-limit check first — its state update happens
unconditionally — then the trigger check, then the analysis call. -/
def onMessageAuto (shouldFactCheck : String → Bool) (st : BotState)
    (authorId content : String) (now : Int) : AutoCheckOutcome × BotState :=
  let r := checkRateLimit st.rate_limiter authorId now
  if r.1 = false then (AutoCheckOutcome.rateLimited, { st with rate_limiter := r.2 })
  else if shouldFactCheck content then
    (AutoCheckOutcome.factChecked, { st with rate_limiter := r.2 })
  else (AutoCheckOutcome.noTrigger, { st with rate_limiter := r.2 })

/-- `FactChecker._create_fact_check_prompt`. -/
def createFactCheckPrompt (claim : String) : String :=
  "\nYou are an expert fact-checker. Please analyze the following claim thoroughly and provide a comprehensive fact-check.\n\nCLAIM TO ANALYZE:\n\"" ++ claim ++
  "\"\n\nPlease provide your analysis in the following structured format:\n\nACCURACY: [True/Mostly True/Mixed/Mostly False/False/Insufficient Evidence]\n\nCONFIDENCE: [0-100]% (How confident are you in this assessment?)\n\nEXPLANATION: [Provide a detailed explanation of your fact-check, including:\n- What aspects of the claim are accurate or inaccurate\n- What evidence supports or contradicts the claim\n- Any important context or nuances\n- Why you reached this conclusion]\n\nSOURCES: [List 2-4 reliable sources that support your analysis, if available. Format as brief descriptions rather than URLs]\n\nIMPORTANT GUIDELINES:\n- Be objective and evidence-based\n- Consider multiple perspectives\n- Distinguish between facts and opinions\n- Note any missing context that affects accuracy\n- If the claim is too vague or subjective to fact-check, indicate this\n- For claims about current events, acknowledge if information may be rapidly evolving\n- Be precise about what exactly is true or false in complex claims\n"

/-- `FactChecker.check_claim`, with the external service as a function
parameter (`none` = failed call) and an instrumentation flag recording
whether the external service was invoked.  A claim whose cleaned form
is empty or shorter than 10 characters returns `None` before any
request; a failed request also returns `None`.  No limiter state
appears anywhere in this function — `check_claim` cannot mutate one. -/
def checkClaim (claim : String) (callGemini : String → Option String) :
    Option FactCheckResult × Bool :=
  let cleaned := cleanClaim claim
  if cleaned.data.isEmpty ∨ (pyStrip cleaned.data).length < 10 then (none, false)
  else
    match callGemini (createFactCheckPrompt cleaned) with
    | some resp => (some (parseFactCheckResponse resp), true)
    | none => (none, true)

/-! ## Claims about the pipeline -/

/-- C4 counterexample: in `on_message` the per-identifier rate-limit
check runs *before* the trigger check, so a message that fails the
trigger check has already consumed a slot (the limiter window changes
from empty to `[0]`); and the `GlobalRateLimiter` is never consulted —
with a zero-capacity global limiter the pipeline still proceeds to the
analysis call. -/
theorem pipeline_order_counterexample :
    (onMessageAuto (fun _ => false) ⟨⟨5, 300, []⟩, ⟨0, []⟩⟩ "alice" "hello" 0).1 =
      AutoCheckOutcome.noTrigger ∧
    (onMessageAuto (fun _ => false)
        ⟨⟨5, 300, []⟩, ⟨0, []⟩⟩ "alice" "hello" 0).2.rate_limiter.requests =
      [("alice", [0])] ∧
    (onMessageAuto (fun _ => true) ⟨⟨5, 300, []⟩, ⟨0, []⟩⟩ "alice"
        "studies show this cures everything" 0).1 = AutoCheckOutcome.factChecked := by
  refine ⟨by decide, by decide, by decide⟩

/-- C4 amended: the automatic pipeline order is per-identifier
admission first, then the trigger check, then the analysis call (which
itself normalizes before requesting); the per-identifier limiter is
updated by every invocation regardless of the trigger result, the
analysis call happens exactly when admission succeeded and the trigger
fired, and no step reads or writes the `GlobalRateLimiter`. -/
theorem pipeline_order (f : String → Bool) (st : BotState)
    (authorId content : String) (now : Int) :
    (onMessageAuto f st authorId content now).2.rate_limiter =
      (checkRateLimit st.rate_limiter authorId now).2 ∧
    (onMessageAuto f st authorId content now).2.global_limiter = st.global_limiter ∧
    ((onMessageAuto f st authorId content now).1 = AutoCheckOutcome.factChecked ↔
      (checkRateLimit st.rate_limiter authorId now).1 = true ∧ f content = true) := by
  unfold onMessageAuto
  by_cases hr : (checkRateLimit st.rate_limiter authorId now).1 = false
  · simp [hr]
  · simp only [Bool.not_eq_false] at hr
    by_cases hf : f content = true
    · simp [hr, hf]
    · simp only [Bool.not_eq_true] at hf
      simp [hr, hf]

/-- C5 counterexample: a too-short claim and a failed external call
produce the *same* bare `None` — the two failure causes are not
distinguishable from the analysis result. -/
theorem short_vs_service_failure_indistinct :
    (checkClaim "ok" (fun _ => some "ACCURACY: True")).1 = none ∧
    (checkClaim "the earth is demonstrably flat" (fun _ => none)).1 = none ∧
    (checkClaim "ok" (fun _ => some "ACCURACY: True")).1 =
      (checkClaim "the earth is demonstrably flat" (fun _ => none)).1 := by
  refine ⟨by decide, by decide, by decide⟩

/-- C5 amended: `check_claim("ok")` returns `None` without invoking the
external service (and touches no limiter — no limiter state occurs in
`check_claim` at all), but this `None` is the very value returned when
the external call fails, so the caller cannot tell the causes apart. -/
theorem short_claim_halts_early :
    (∀ service : String → Option String, checkClaim "ok" service = (none, false)) ∧
    (∀ s : String, (checkClaim s (fun _ => none)).1 = none) := by
  refine ⟨fun service => rfl, ?_⟩
  intro s
  simp only [checkClaim]
  split
  · rfl
  · rfl
